import Mathlib

/-!
Verification development for the AnalyzerPro static-analysis core.

The definitions below are a shallow embedding, in Lean, of the TypeScript
sources of the analyzer:

* `packages/core/src/duplication-detector.ts` (class `DuplicationDetector`),
* `packages/core/src/traverser.ts` (function `traverse` and its constants),
* `packages/core/src/parent-info.ts` (function `getParentInfo`),
* `packages/core/src/contextual-naming-system.ts` (class `ContextualNamingSystem`),
* the `FunctionAnalyzer` class (function-analyzer module),
* the `RepositoryAnalyzer` orchestrator (analyzeRepo / analyzeFile).

JavaScript strings are modelled as `List Char`; JavaScript numbers that are
always integral in the source are modelled as `Nat` or `Int`; floating-point
ratio comparisons against the literal thresholds 0.2 / 0.3 / 0.8 are modelled
by exact rational comparison (all concrete inputs used below are far from the
thresholds, where the two semantics agree).  JavaScript `Map` objects are
modelled as association lists with in-place update (JS `Map.set` on an
existing key keeps the key's position; on a new key it appends), matching the
insertion-order iteration of JS Maps.  `Array.prototype.sort` (stable in V8)
is modelled by `List.insertionSort`, which is also stable.
-/

/-- JS strings are lists of characters. -/
abbrev Str := List Char

/-- Whitespace for the purposes of `\s`, `String.prototype.trim` and friends
(the sources only ever meet ASCII whitespace). -/
def isWS (c : Char) : Bool :=
  c = ' ' || c = '\t' || c = '\n' || c = '\r'

/-- Collapse every maximal run of whitespace to a single space:
`code.replace(/\s+/g, ' ')`. -/
def collapseWS : Str → Str
  | [] => []
  | [c] => [if isWS c then ' ' else c]
  | c₁ :: c₂ :: rest =>
    if isWS c₁ && isWS c₂ then collapseWS (c₂ :: rest)
    else (if isWS c₁ then ' ' else c₁) :: collapseWS (c₂ :: rest)

/-- `String.prototype.trim()`. -/
def trimStr (s : Str) : Str :=
  ((s.dropWhile isWS).reverse.dropWhile isWS).reverse

/-- Does `pat` occur at position `p` of `s`? -/
def subAt (pat s : Str) (p : Nat) : Bool :=
  decide ((s.drop p).take pat.length = pat)

/-- Does `pat` occur anywhere in `s` (`String.prototype.includes`)? -/
def hasSub (pat s : Str) : Bool :=
  (List.range (s.length + 1)).any (subAt pat s)

namespace DuplicationDetector

/-- `normalizeCode` of `duplication-detector.ts`: collapse whitespace,
unify quote characters, strip semicolons and braces, trim. -/
def normalizeCode (code : Str) : Str :=
  trimStr (((collapseWS code).map
      (fun c => if c = '\x27' then '"' else c)).filter
      (fun c => !(c = ';' || c = '\x7b' || c = '\x7d')))

/-- The tail of the leftmost match of `/=>\s*([^{]*)$/` in `code`, trimmed:
the first `=>` after which no `{` occurs through the end of the string. -/
def arrowTail (code : Str) : Option Str :=
  ((List.range code.length).find?
      (fun p => subAt ('=' :: '>' :: []) code p
        && !((code.drop (p + 2)).any (fun c => c = '\x7b')))).map
    (fun p => trimStr (code.drop (p + 2)))

/-- `extractFunctionBody` of `duplication-detector.ts`.  If the code contains
`=>` and the arrow regex matches, the implicit-return expression is returned;
otherwise the text between the first `{` and a final `}` is returned (`null`,
i.e. `none`, when the block regex fails too). -/
def extractFunctionBody (code : Str) : Option Str :=
  match (if hasSub ('=' :: '>' :: []) code then arrowTail code else none) with
  | some t => some t
  | none =>
    if code.getLast? = some '\x7d' && code.any (fun c => c = '\x7b') then
      some (trimStr (((code.dropWhile (fun c => !(c = '\x7b'))).drop 1).dropLast))
    else none

/-- Decimal representation of a natural number (JS number-to-string for the
integral values produced by the detector), with structural fuel. -/
def natReprGo : Nat → Nat → Str
  | 0, _ => []
  | fuel + 1, n =>
    if n < 10 then [Char.ofNat (48 + n)]
    else natReprGo fuel (n / 10) ++ [Char.ofNat (48 + n % 10)]

/-- Decimal representation of a natural number. -/
def natRepr (n : Nat) : Str := natReprGo (n + 1) n

/-- JS `\w` word characters. -/
def isWordChar (c : Char) : Bool := c.isAlpha || c.isDigit || c = '_'

/-- Is the character at index `i` of `code` a word character
(out-of-range counts as non-word)? -/
def wordAt (code : Str) (i : Nat) : Bool := isWordChar (code.getD i ' ')

/-- Word boundary `\b` immediately before position `p`. -/
def boundaryBefore (code : Str) (p : Nat) : Bool :=
  p = 0 || !wordAt code (p - 1)

/-- Word boundary `\b` immediately after a match ending at position `q`
whose last character is a word character. -/
def boundaryAfter (code : Str) (q : Nat) : Bool := !wordAt code q

/-- Number of matches of `/\bk\b/g` in `code`, for an all-word-character
keyword `k`: boundary-delimited occurrences of such a keyword are pairwise
disjoint, so counting start positions equals counting regex matches. -/
def countKeywordOcc (k code : Str) : Nat :=
  (List.range (code.length + 1)).countP
    (fun p => subAt k code p && boundaryBefore code p && boundaryAfter code (p + k.length))

/-- Keyword list of `countKeywords`. -/
def keywordList : List Str :=
  ["if", "for", "while", "return", "const", "let", "var", "function"].map String.toList

/-- `countKeywords` of `duplication-detector.ts`. -/
def countKeywords (code : Str) : Nat :=
  keywordList.foldl (fun acc k => acc + countKeywordOcc k code) 0

/-- Leftmost non-overlapping occurrences of `op` in `code`
(`code.split(op).length - 1`), with structural fuel. -/
def countSplitOccGo (op : Str) : Nat → Str → Nat
  | 0, _ => 0
  | _ + 1, [] => 0
  | fuel + 1, c :: rest =>
    if subAt op (c :: rest) 0 then 1 + countSplitOccGo op fuel (rest.drop (op.length - 1))
    else countSplitOccGo op fuel rest

/-- `code.split(op).length - 1`. -/
def countSplitOcc (op code : Str) : Nat := countSplitOccGo op code.length code

/-- Operator list of `countOperators`. -/
def operatorList : List Str :=
  ["=", "==", "===", "!=", "!==", "+", "-", "*", "/", "%", "&&", "||"].map String.toList

/-- `countOperators` of `duplication-detector.ts`. -/
def countOperators (code : Str) : Nat :=
  operatorList.foldl (fun acc op => acc + countSplitOcc op code) 0

/-- First character class of the identifier regex `[a-zA-Z_$]`. -/
def idStart (c : Char) : Bool := c.isAlpha || c = '_' || c = '$'

/-- Continuation class of the identifier regex `[a-zA-Z0-9_$]`. -/
def idCont (c : Char) : Bool := idStart c || c.isDigit

/-- Word boundary `\b` at an arbitrary position `q` (true when exactly one of
the two adjacent characters is a word character; positions outside the string
count as non-word). -/
def bAt (code : Str) (q : Nat) : Bool :=
  (if q = 0 then false else wordAt code (q - 1)) != wordAt code q

/-- End position of a match of `/\b[a-zA-Z_$][a-zA-Z0-9_$]*\b/` starting at
`p`, if any: greedy run of identifier characters, backtracking the trailing
`\b` to the largest end position `q > p` where a boundary holds. -/
def matchIdAt (code : Str) (p : Nat) : Option Nat :=
  if idStart (code.getD p ' ') && bAt code p then
    let e := p + ((code.drop p).takeWhile idCont).length
    ((List.range (e - p)).map (fun k => e - k)).find? (fun q => p < q && bAt code q)
  else none

/-- Global scan of the identifier regex: count matches from position `s` on,
resuming after each match end. -/
def countIdsFrom (code : Str) : Nat → Nat → Nat
  | 0, _ => 0
  | fuel + 1, s =>
    if code.length ≤ s then 0
    else
      match matchIdAt code s with
      | some q => 1 + countIdsFrom code fuel q
      | none => countIdsFrom code fuel (s + 1)

/-- `countIdentifiers` of `duplication-detector.ts`. -/
def countIdentifiers (code : Str) : Nat :=
  countIdsFrom code (code.length + 1) 0

/-- `generateFingerprint` of `duplication-detector.ts`: the four features
joined with `|`. -/
def generateFingerprint (code : Str) : Str :=
  natRepr code.length ++ '|' :: natRepr (countKeywords code)
    ++ '|' :: natRepr (countOperators code) ++ '|' :: natRepr (countIdentifiers code)

/-- Split a string at `|` separators (`String.prototype.split('|')`). -/
def splitPipe : Str → List Str
  | [] => [[]]
  | c :: rest =>
    let r := splitPipe rest
    if c = '|' then [] :: r
    else
      match r with
      | h :: t => (c :: h) :: t
      | [] => [[c]]

/-- `Number(s)` for a non-empty all-digit string; `none` models `NaN`. -/
def parseNat (s : Str) : Option Nat :=
  if s ≠ [] && s.all Char.isDigit then
    some (s.foldl (fun acc c => acc * 10 + (c.toNat - 48)) 0)
  else none

/-- `|a - b| / max a b < tn / td`, with the JS `NaN` behaviour: when
`max a b = 0` the quotient is `NaN` and every comparison is false. -/
def ratioLt (a b tn td : Nat) : Bool :=
  decide (0 < max a b ∧ (max a b - min a b) * td < tn * max a b)

/-- `areFingerprintsSimilar` of `duplication-detector.ts`: parse the two
fingerprints and require all four relative differences below 20%/30%/30%/30%.
A missing or non-numeric component gives `NaN` comparisons, hence `false`. -/
def areFingerprintsSimilar (fp1 fp2 : Str) : Bool :=
  match splitPipe fp1, splitPipe fp2 with
  | [l1, k1, o1, i1], [l2, k2, o2, i2] =>
    match parseNat l1, parseNat k1, parseNat o1, parseNat i1,
        parseNat l2, parseNat k2, parseNat o2, parseNat i2 with
    | some a1, some b1, some c1, some d1, some a2, some b2, some c2, some d2 =>
      ratioLt a1 a2 1 5 && ratioLt b1 b2 3 10 && ratioLt c1 c2 3 10 && ratioLt d1 d2 3 10
    | _, _, _, _, _, _, _, _ => false
  | _, _ => false

/-- `extractWindowFeatures`: braces and parentheses weigh 2, `; = + -`
weigh 1. -/
def extractWindowFeatures (window : Str) : Nat :=
  window.foldl
    (fun acc c =>
      let acc := if c = '\x7b' || c = '\x7d' || c = '(' || c = ')' then acc + 2 else acc
      if c = ';' || c = '=' || c = '+' || c = '-' then acc + 1 else acc)
    0

/-- `areWindowsSimilar`: structural weights differ by under 3. -/
def areWindowsSimilar (w1 w2 : Str) : Bool :=
  decide (max (extractWindowFeatures w1) (extractWindowFeatures w2)
    - min (extractWindowFeatures w1) (extractWindowFeatures w2) < 3)

/-- The 50-character windows of `s` taken at offsets 0, 25, 50, … while the
offset is strictly below `s.length - 50` (as in the `for` loops of
`calculateSimilarityOptimized`). -/
def windowsOf (s : Str) : List Str :=
  (((List.range s.length).filter
      (fun (i : Nat) => i % 25 = 0 && decide ((i : Int) < (s.length : Int) - 50))).map
    (fun (i : Nat) => (s.drop i).take 50))

/-- The pair (matched window pairs, total window pairs) underlying
`calculateSimilarityOptimized`: every window of `str1` is compared with every
window of `str2`. -/
def similarityCounts (str1 str2 : Str) : Nat × Nat :=
  let ws1 := windowsOf str1
  let ws2 := windowsOf str2
  ((ws1.map (fun w1 => (ws2.filter (areWindowsSimilar w1)).length)).sum,
    ws1.length * ws2.length)

/-- `calculateSimilarityOptimized` of `duplication-detector.ts`:
matches / comparisons (0 when there are no comparisons). -/
def calculateSimilarityOptimized (str1 str2 : Str) : ℚ :=
  let mc := similarityCounts str1 str2
  if 0 < mc.2 then (mc.1 : ℚ) / (mc.2 : ℚ) else 0

/-- The source's join test `similarity >= SIMILARITY_THRESHOLD` (0.8),
phrased over the match/comparison counts: `m / c ≥ 4/5` with the value 0
taken when there are no comparisons. -/
def similarityAtLeastThreshold (str1 str2 : Str) : Bool :=
  let mc := similarityCounts str1 str2
  0 < mc.2 && 4 * mc.2 ≤ 5 * mc.1

/-- The slice of a `FunctionMetrics` record that `findDuplicatedCode` reads:
`startLine`, `lines` and the raw `code` text. -/
structure FuncM where
  startLine : Nat
  lines : Nat
  code : Str
deriving DecidableEq, Repr

/-- Non-strict range containment as tested by the detector:
`a.startLine <= b.startLine && a.startLine + a.lines >= b.startLine + b.lines`. -/
def containsFn (a b : FuncM) : Bool :=
  decide (a.startLine ≤ b.startLine ∧ b.startLine + b.lines ≤ a.startLine + a.lines)

/-- The sort comparator of `findDuplicatedCode`: containing functions first,
then ascending start line. -/
def jsCompare (a b : FuncM) : Int :=
  if containsFn a b then -1
  else if containsFn b a then 1
  else (a.startLine : Int) - (b.startLine : Int)

/-- `a` may be placed no later than `b` under the comparator.  `Array.sort`
in V8 is a stable comparison sort; for this comparator the relation below is
total and transitive, so every stable comparison sort produces the list
modelled here by the (stable) `List.insertionSort`.  Functions are tagged
with their position in the input array so that distinct array elements stay
distinct values (JS object identity). -/
def sortLe (a b : Nat × FuncM) : Prop := jsCompare a.2 b.2 ≤ 0

instance : DecidableRel sortLe := fun a b =>
  inferInstanceAs (Decidable (jsCompare a.2 b.2 ≤ 0))

/-- The sorted (outermost first) tagged function list. -/
def sortedFunctions (fns : List FuncM) : List (Nat × FuncM) :=
  fns.enum.insertionSort sortLe

/-- Nesting level of `e` as computed by the detector: the number of functions
placed before `e` in the sorted array whose range (non-strictly) contains
`e`'s range (the inner loop breaks at `e` itself). -/
def levelOfAt (sorted : List (Nat × FuncM)) (e : Nat × FuncM) : Nat :=
  (sorted.takeWhile (fun x => x != e)).countP (fun x => containsFn x.2 e.2)

/-- A duplicate group stored in the detector's `codeMap`. -/
structure Grp where
  count : Nat
  lines : Nat
  indexes : List (Int × Int)
  level : Nat
deriving DecidableEq, Repr

/-- The `codeMap` (a JS `Map` keyed by fingerprint) as an association list in
key-insertion order. -/
abbrev CodeMap := List (Str × Grp)

/-- `Map.prototype.get`. -/
def mapGet (m : CodeMap) (k : Str) : Option Grp :=
  (m.find? (fun e => e.1 = k)).map (·.2)

/-- `Map.prototype.set`: update the value in place when the key exists
(keeping its position), else append. -/
def mapSet (m : CodeMap) (k : Str) (v : Grp) : CodeMap :=
  match m with
  | [] => [(k, v)]
  | (k', v') :: rest => if k' = k then (k, v) :: rest else (k', v') :: mapSet rest k v

/-- One more occurrence appended to a group. -/
def addOccurrence (g : Grp) (rng : Int × Int) : Grp :=
  { g with count := g.count + 1, indexes := g.indexes ++ [rng] }

/-- Scan the `codeMap` in iteration order for the first group at this level
whose fingerprint is cheaply similar and whose windowed similarity against
the new normalized code is at least 0.8; bump that group if found.  Note the
second argument handed to `calculateSimilarityOptimized` is the stored
fingerprint key, exactly as in the source. -/
def findSimilarUpdate (normalizedCode fingerprint : Str) (level : Nat)
    (rng : Int × Int) : CodeMap → Option CodeMap
  | [] => none
  | (k, g) :: rest =>
    if g.level = level && areFingerprintsSimilar fingerprint k
        && similarityAtLeastThreshold normalizedCode k then
      some ((k, addOccurrence g rng) :: rest)
    else
      (findSimilarUpdate normalizedCode fingerprint level rng rest).map
        (fun m => (k, g) :: m)

/-- Processing of one function of a level group by `findDuplicatedCode`:
extract and normalize the body (skipping the function when extraction fails
or yields an empty string), then exact-fingerprint match at the same level,
then the similarity scan, else a fresh single-occurrence group stored under
the fingerprint (replacing, in place, any group another level stored there). -/
def processFunc (level : Nat) (codeMap : CodeMap) (func : FuncM) : CodeMap :=
  match extractFunctionBody func.code with
  | none => codeMap
  | some body =>
    if body = [] then codeMap
    else
      let normalizedCode := (normalizeCode body).take 1000
      let fingerprint := generateFingerprint normalizedCode
      let rng : Int × Int :=
        ((func.startLine : Int) - 1, (func.startLine : Int) - 1 + (func.lines : Int) - 1)
      let fallback : CodeMap :=
        match findSimilarUpdate normalizedCode fingerprint level rng codeMap with
        | some m => m
        | none => mapSet codeMap fingerprint ⟨1, func.lines, [rng], level⟩
      match mapGet codeMap fingerprint with
      | some ex => if ex.level = level then mapSet codeMap fingerprint (addOccurrence ex rng) else fallback
      | none => fallback

/-- Append `f` to the bucket of `level` in the level-group map (JS `Map`
keyed by level, insertion order preserved). -/
def lvlMapAdd (m : List (Nat × List (Nat × FuncM))) (level : Nat) (f : Nat × FuncM) :
    List (Nat × List (Nat × FuncM)) :=
  match m with
  | [] => [(level, [f])]
  | (l, fs) :: rest =>
    if l = level then (l, fs ++ [f]) :: rest else (l, fs) :: lvlMapAdd rest level f

/-- The level groups of the sorted function list: functions with empty `code`
are skipped (JS falsiness of `''`), but still count toward the levels of the
functions after them. -/
def buildLevelGroups (sorted : List (Nat × FuncM)) : List (Nat × List (Nat × FuncM)) :=
  sorted.foldl
    (fun m f => if f.2.code = [] then m else lvlMapAdd m (levelOfAt sorted f) f) []

/-- The final `codeMap` after processing every level group in map iteration
order and, within a group, every function in sorted order. -/
def buildCodeMap (fns : List FuncM) : CodeMap :=
  (buildLevelGroups (sortedFunctions fns)).foldl
    (fun cm lg => lg.2.foldl (fun cm f => processFunc lg.1 cm f.2) cm) []

/-- Mark the inclusive line range `rng` (0-based, possibly out of bounds) in
the boolean flag array, with the bounds check of the source. -/
def markRange (flags : List Bool) (rng : Int × Int) : List Bool :=
  (List.range (rng.2 - rng.1 + 1).toNat).foldl
    (fun fl (k : Nat) =>
      if 0 ≤ rng.1 + (k : Int) ∧ rng.1 + (k : Int) < (fl.length : Int) then
        fl.set (rng.1 + (k : Int)).toNat true
      else fl)
    flags

/-- `findDuplicatedCode` of `duplication-detector.ts`: build the groups, mark
every occurrence except the first of each multi-occurrence group in one
boolean array indexed by absolute file line, and count the flagged lines. -/
def findDuplicatedCode (functions : List FuncM) (totalFileLines : Nat) : Nat :=
  let codeMap := buildCodeMap functions
  let flags :=
    codeMap.foldl
      (fun fl e =>
        if 1 < e.2.count then (e.2.indexes.drop 1).foldl markRange fl else fl)
      (List.replicate totalFileLines false)
  flags.countP id

/-- `duplicationPercentage` as computed by `RepositoryAnalyzer.analyzeFile`:
the total function-line count is both the flag-array size and the
denominator; the percentage is 0 when there are no function lines. -/
def duplicationPercentage (functions : List FuncM) : ℚ :=
  if 0 < (functions.map FuncM.lines).sum then
    ((findDuplicatedCode functions ((functions.map FuncM.lines).sum) : ℚ) /
      (((functions.map FuncM.lines).sum : Nat) : ℚ)) * 100
  else 0

/-- Strict range containment (the claim's notion): `f`'s range contains
`g`'s and the two ranges differ.  For the non-strict `containsFn` this is
equivalent to containment in one direction only. -/
def strictContains (f g : FuncM) : Prop :=
  containsFn f g = true ∧ containsFn g f = false

/-- Two concrete top-level functions whose normalized bodies differ by a
single character: fingerprints unequal but cheaply similar, window
similarity of the bodies 1. -/
def simA : FuncM :=
  ⟨1, 4, "function a() \x7b\n  const x = alpha;\n  const y = beta;\n  return x + y + gamma;\n\x7d".toList⟩

/-- Companion of `simA` (one identifier one character longer). -/
def simB : FuncM :=
  ⟨5, 4, "function b() \x7b\n  const x = alphaz;\n  const y = beta;\n  return x + y + gamma;\n\x7d".toList⟩

/-- The normalized, truncated body of `simA` as the detector computes it. -/
def normA : Str := (normalizeCode ((extractFunctionBody simA.code).getD [])).take 1000

/-- The normalized, truncated body of `simB` as the detector computes it. -/
def normB : Str := (normalizeCode ((extractFunctionBody simB.code).getD [])).take 1000

/-- Top-level function with body X (fingerprint-collision scenario). -/
def dupA : FuncM :=
  ⟨1, 5, "function a() \x7b\n  const x = alpha;\n  const y = beta;\n  return x + y;\n\x7d".toList⟩

/-- Second top-level function with the same body X. -/
def dupB : FuncM :=
  ⟨6, 5, "function b() \x7b\n  const x = alpha;\n  const y = beta;\n  return x + y;\n\x7d".toList⟩

/-- Top-level function strictly containing `dupC`. -/
def dupD : FuncM :=
  ⟨11, 10, "function d() \x7b\n  const w = omega;\n  const z = zeta;\n  function c() \x7b\n  const x = alpha;\n  const y = beta;\n  return x + y;\n\x7d\n  return w + z;\n\x7d".toList⟩

/-- Nested (level-1) function whose body is again X. -/
def dupC : FuncM :=
  ⟨14, 5, "function c() \x7b\n  const x = alpha;\n  const y = beta;\n  return x + y;\n\x7d".toList⟩

/-- Concrete outer function for the level-monotonicity witness. -/
def lvlF : FuncM := ⟨1, 10, "function f() \x7b return inner(); \x7d".toList⟩

/-- Concrete inner function strictly contained in `lvlF`. -/
def lvlG : FuncM := ⟨2, 3, "function g() \x7b return 1; \x7d".toList⟩

end DuplicationDetector

mutual
/-- A JavaScript value as seen by the tree walker of `traverser.ts`: an AST
node (with its `type` discriminator, optional `loc` line pair and remaining
own properties in key order), an array, a string, a boolean, `null`, or some
other non-node object (skipped by the walker).  `loc` is kept out of the
property list: it is an object without a `type` field, which the walker's
reflection loop skips. -/
inductive AstV : Type where
  | node (ty : String) (loc : Option (Nat × Nat)) (props : AstProps)
  | arr (elems : AstElems)
  | strv (s : String)
  | boolv (b : Bool)
  | nullv
  | other
deriving DecidableEq
/-- The own enumerable properties of a node, in key-insertion order. -/
inductive AstProps : Type where
  | nil
  | cons (key : String) (val : AstV) (rest : AstProps)
deriving DecidableEq
/-- The elements of an array property. -/
inductive AstElems : Type where
  | nil
  | cons (val : AstV) (rest : AstElems)
deriving DecidableEq
end

/-- The `type` discriminator of a node (empty for non-nodes, which are never
queried). -/
def getTy : AstV → String
  | .node ty _ _ => ty
  | _ => ""

/-- The `loc` line pair of a node. -/
def getLoc : AstV → Option (Nat × Nat)
  | .node _ loc _ => loc
  | _ => none

/-- First property with the given key. -/
def getPropL : AstProps → String → Option AstV
  | .nil, _ => none
  | .cons k v rest, key => if k = key then some v else getPropL rest key

/-- `node.key` property access. -/
def getProp (n : AstV) (key : String) : Option AstV :=
  match n with
  | .node _ _ props => getPropL props key
  | _ => none

/-- JS in-place property write `node[key] = v`: replace the value at an
existing key (keeping its position in key order), else append the key. -/
def setPropL : AstProps → String → AstV → AstProps
  | .nil, key, v => .cons key v .nil
  | .cons k w rest, key, v =>
    if k = key then .cons k v rest else .cons k w (setPropL rest key v)

/-- `node.k1?.name`-style access: the string property `k2` of the node-valued
property `k1`. -/
def propStr (n : AstV) (k1 k2 : String) : Option String :=
  match getProp n k1 with
  | some m =>
    match getProp m k2 with
    | some (.strv s) => some s
    | _ => none
  | none => none

/-- The string property `k` of `n` itself (e.g. `callee.name`). -/
def ownStr (n : AstV) (k : String) : Option String :=
  match getProp n k with
  | some (.strv s) => some s
  | _ => none

/-- A boolean property (`node.async`, `node.generator`); absent is falsy. -/
def ownBool (n : AstV) (k : String) : Bool :=
  match getProp n k with
  | some (.boolv b) => b
  | _ => false

/-- JS `a || d` for an optional string `a` (empty strings are falsy). -/
def jsOrD (a : Option String) (d : String) : String :=
  match a with
  | some s => if s = "" then d else s
  | none => d

/-- JS template interpolation of a possibly-undefined string. -/
def optStr (a : Option String) : String := a.getD "undefined"

/-- `CONTROL_FLOW_TYPES` of `traverser.ts`. -/
def CONTROL_FLOW_TYPES : List String :=
  ["IfStatement", "SwitchCase", "ForStatement", "WhileStatement",
    "DoWhileStatement", "CatchClause", "ConditionalExpression",
    "ForInStatement", "ForOfStatement", "LogicalExpression"]

/-- `NODE_TYPES_TO_SKIP` of `traverser.ts`. -/
def NODE_TYPES_TO_SKIP : List String :=
  ["StringLiteral", "NumericLiteral", "BooleanLiteral", "NullLiteral",
    "RegExpLiteral"]

/-- `FUNCTION_TYPES` of `traverser.ts`. -/
def FUNCTION_TYPES : List String :=
  ["FunctionDeclaration", "ArrowFunctionExpression", "FunctionExpression"]

/-- The parent-context record returned by `getParentInfo` of
`parent-info.ts` (fields may be `undefined`). -/
structure PInfo where
  type : String
  name : Option String
  objectName : Option String
  method : Option String
deriving DecidableEq, Repr

/-- `getParentInfo` of `parent-info.ts`: the closed dispatch on the parent's
node kind. -/
def getParentInfo (parent : Option AstV) : Option PInfo :=
  match parent with
  | none => none
  | some p =>
    let ty := getTy p
    if ty = "VariableDeclarator" then some ⟨ty, propStr p "id" "name", none, none⟩
    else if ty = "ObjectProperty" then some ⟨ty, propStr p "key" "name", none, none⟩
    else if ty = "ClassMethod" then some ⟨ty, propStr p "key" "name", none, none⟩
    else if ty = "AssignmentExpression" then some ⟨ty, propStr p "left" "name", none, none⟩
    else if ty = "ExportDefaultDeclaration" then some ⟨ty, some "default", none, none⟩
    else if ty = "ObjectMethod" then some ⟨ty, propStr p "key" "name", none, none⟩
    else if ty = "ClassProperty" then some ⟨ty, propStr p "key" "name", none, none⟩
    else if ty = "JSXAttribute" then some ⟨ty, propStr p "name" "name", none, none⟩
    else if ty = "ExportNamedDeclaration" then
      match getProp p "declaration" with
      | some decl =>
        if getTy decl = "VariableDeclaration" then
          match getProp decl "declarations" with
          | some (.arr (.cons d _)) =>
            match propStr d "id" "name" with
            | some nm => if nm = "" then none else some ⟨ty, some nm, none, none⟩
            | none => none
          | _ => none
        else
          match propStr decl "id" "name" with
          | some nm => if nm = "" then none else some ⟨ty, some nm, none, none⟩
          | none => none
      | none => none
    else if ty = "CallExpression" then
      match getProp p "callee" with
      | some c =>
        if getTy c = "Identifier" then
          some ⟨"CallExpression", ownStr c "name", none, ownStr c "name"⟩
        else if getTy c = "MemberExpression" || getTy c = "OptionalMemberExpression" then
          some ⟨"CallExpression", some (jsOrD (propStr c "property" "name") "unknown"),
            some (jsOrD (propStr c "object" "name") "object"),
            some (jsOrD (propStr c "property" "name") "unknown")⟩
        else none
      | none => none
    else none

/-- A naming context of `contextual-naming-system.ts`. -/
structure Ctx where
  type : String
  objectName : String
  method : Option String
deriving DecidableEq, Repr

/-- The `OptionalCallExpression` context extractor (keyed by the callee's
shape, not the node's own type). -/
def extractOptional (n : AstV) : Option Ctx :=
  match getProp n "callee" with
  | some c =>
    if getTy c = "OptionalMemberExpression" then
      some ⟨"OptionalCallExpression", jsOrD (propStr c "object" "name") "object",
        propStr c "property" "name"⟩
    else none
  | none => none

/-- The `CallExpression` context extractor. -/
def extractCall (n : AstV) : Option Ctx :=
  match getProp n "callee" with
  | some c =>
    if getTy c = "MemberExpression" then
      some ⟨"CallExpression", jsOrD (propStr c "object" "name") "object",
        propStr c "property" "name"⟩
    else none
  | none => none

/-- The `JSXExpressionContainer` context extractor. -/
def extractJSX (n : AstV) : Option Ctx :=
  match getProp n "expression" with
  | some e =>
    if getTy e = "CallExpression" then
      match getProp e "callee" with
      | some c =>
        if getTy c = "MemberExpression" then
          some ⟨"JSXExpressionContainer", jsOrD (propStr c "object" "name") "object",
            propStr c "property" "name"⟩
        else none
      | none => none
    else none
  | none => none

/-- `extractContextFromNode`: the extractors are tried in declaration order.
(The JS code would throw on an `undefined` parent; that call is unreachable
in the analyzer pipeline, where every function node reached with
`onFunction` registered has a parent.) -/
def extractContextFromNode (parent : Option AstV) : Option Ctx :=
  match parent with
  | none => none
  | some n => (extractOptional n).orElse (fun _ => (extractCall n).orElse (fun _ => extractJSX n))

/-- The `ARRAY_METHODS` list of `contextual-naming-system.ts`. -/
def ARRAY_METHODS : List String :=
  ["map", "filter", "forEach", "find", "some", "every", "reduce"]

/-- `CONTEXT_NAME_MAPPINGS` plus the `generateName` fallback: format a name
from the current naming context. -/
def generateName (ctx : Ctx) (n : AstV) : String :=
  if ctx.type = "OptionalCallExpression" then
    ctx.objectName ++ "?." ++ optStr ctx.method ++ " callback"
  else if ctx.type = "CallExpression" then
    match ctx.method with
    | none => "anonymous"
    | some m =>
      if m = "" then "anonymous"
      else if m = "then" || m = "catch" || m = "finally" then m ++ " handler"
      else if m ∈ ARRAY_METHODS then m ++ " callback"
      else if m.startsWith "use" then m ++ " callback"
      else ctx.objectName ++ "." ++ m ++ " callback"
  else if ctx.type = "JSXExpressionContainer" then
    ctx.objectName ++ "." ++ optStr ctx.method ++ " callback"
  else
    if getTy n = "FunctionDeclaration" then jsOrD (propStr n "id" "name") "anonymous"
    else "anonymous"

/-- The name-resolution chain of `traverse` (`traverser.ts`, function
handling block): intrinsic identifier of a function declaration, else the
parent-info dispatch, else the naming context, else `"anonymous"`. -/
def resolveFunctionName (n : AstV) (parent : Option AstV) : String :=
  let parentInfo := getParentInfo parent
  let context := extractContextFromNode parent
  if getTy n = "FunctionDeclaration" ∧ jsOrD (propStr n "id" "name") "" ≠ "" then
    jsOrD (propStr n "id" "name") ""
  else
    match parentInfo with
    | some pi =>
      if pi.type = "CallExpression" then jsOrD pi.method (jsOrD pi.name "anonymous")
      else
        match pi.name with
        | some s => if s = "" then "anonymous" else s
        | none => "anonymous"
    | none =>
      match context with
      | some c => generateName c n
      | none => "anonymous"

/-- The `Identifier` node written into `node.id` by the traverser. -/
def identNode (name : String) : AstV :=
  .node "Identifier" none (.cons "name" (.strv name) .nil)

/-- The write-back `(node as any).id = { type: 'Identifier', name }`. -/
def setId (n : AstV) (name : String) : AstV :=
  match n with
  | .node ty loc props => .node ty loc (setPropL props "id" (identNode name))
  | v => v

/-- Which callbacks are registered (`TraverseOptions`). -/
structure TravOpts where
  onFunction : Bool
  onControlFlow : Bool
deriving DecidableEq, Repr

/-- The callback invocations a traversal produces, in order. -/
inductive Ev : Type where
  | fnEv (n : AstV) (pinfo : Option PInfo)
  | cfEv (ty : String)
deriving DecidableEq

/-- The name the function-handling block of `traverse` writes onto an
arrow-function or function-expression node (`none` when no write happens:
callback not registered, not a function node, wrong node kind, or the name
resolved to `"anonymous"`). -/
def functionNameMutation (opts : TravOpts) (parent : Option AstV) (n : AstV) :
    Option String :=
  if opts.onFunction ∧ getTy n ∈ FUNCTION_TYPES
      ∧ (getTy n = "ArrowFunctionExpression" ∨ getTy n = "FunctionExpression")
      ∧ resolveFunctionName n parent ≠ "anonymous" then
    some (resolveFunctionName n parent)
  else none

/-- Apply a pending id write. -/
def applyMut (n : AstV) : Option String → AstV
  | some name => setId n name
  | none => n

/-- The `onFunction` events of the function-handling block (the callback
receives the node after the id write). -/
def functionEvents (opts : TravOpts) (parent : Option AstV) (n : AstV) : List Ev :=
  if opts.onFunction ∧ getTy n ∈ FUNCTION_TYPES then
    [.fnEv (applyMut n (functionNameMutation opts parent n)) (getParentInfo parent)]
  else []

mutual
/-- `traverse` of `traverser.ts`, as a pure function from the visited node
to the (possibly id-mutated) node and the list of callback invocations.
Literal kinds return at once; the function-handling block resolves a name,
writes it onto arrow/function-expression nodes and invokes `onFunction`;
`onControlFlow` fires on the control-flow kinds; then every object-valued
own property with a `type` field, and every such element of array-valued
properties, is traversed with the current (mutated) node as parent.  The
only divergence from the JS reference semantics: JS performs the id write
before recursing and so traverses the freshly written `Identifier` instead
of a pre-existing `id` value; both are inert for traversal (no events, no
changes) on every AST the Babel parser can produce, and here the write is
applied after the children are traversed. -/
def traverseNode (opts : TravOpts) (parent : Option AstV) : AstV → AstV × List Ev
  | .node ty loc props =>
    if ty ∈ NODE_TYPES_TO_SKIP then (.node ty loc props, [])
    else
      let nm := functionNameMutation opts parent (.node ty loc props)
      let evf := functionEvents opts parent (.node ty loc props)
      let evc : List Ev :=
        if opts.onControlFlow ∧ ty ∈ CONTROL_FLOW_TYPES then [.cfEv ty] else []
      let self := applyMut (.node ty loc props) nm
      let pr := traverseProps opts self props
      (applyMut (.node ty loc pr.1) nm, evf ++ evc ++ pr.2)
  | v => (v, [])
/-- Traversal of the property list of `cur`. -/
def traverseProps (opts : TravOpts) (cur : AstV) : AstProps → AstProps × List Ev
  | .nil => (.nil, [])
  | .cons k v rest =>
    match v with
    | .node t l ps =>
      let c := traverseNode opts (some cur) (.node t l ps)
      let r := traverseProps opts cur rest
      (.cons k c.1 r.1, c.2 ++ r.2)
    | .arr es =>
      let c := traverseElems opts cur es
      let r := traverseProps opts cur rest
      (.cons k (.arr c.1) r.1, c.2 ++ r.2)
    | w =>
      let r := traverseProps opts cur rest
      (.cons k w r.1, r.2)
/-- Traversal of the elements of an array-valued property (non-node
elements are skipped). -/
def traverseElems (opts : TravOpts) (cur : AstV) : AstElems → AstElems × List Ev
  | .nil => (.nil, [])
  | .cons v rest =>
    match v with
    | .node t l ps =>
      let c := traverseNode opts (some cur) (.node t l ps)
      let r := traverseElems opts cur rest
      (.cons c.1 r.1, c.2 ++ r.2)
    | w =>
      let r := traverseElems opts cur rest
      (.cons w r.1, r.2)
end

/-- `traverse` at a possibly-null node (`if (!node) return` no-op). -/
def traverseOpt (opts : TravOpts) (parent : Option AstV) :
    Option AstV → Option AstV × List Ev
  | none => (none, [])
  | some n =>
    let r := traverseNode opts parent n
    (some r.1, r.2)

/-- Does this event count toward complexity?  The `onControlFlow` callback
installed by `FunctionAnalyzer.analyzeFunction` re-checks the node type
against the same ten-type list. -/
def isCountedCF : Ev → Bool
  | .cfEv t => t ∈ CONTROL_FLOW_TYPES
  | _ => false

/-- The complexity computed by `FunctionAnalyzer.analyzeFunction`: base 1
plus one per control-flow callback fired by a traversal of the function
node (only `onControlFlow` registered, no parent). -/
def complexityOfNode (n : AstV) : Nat :=
  1 + (traverseNode ⟨false, true⟩ none n).2.countP isCountedCF

/-- `FunctionAnalyzer.determineFunctionType`. -/
def determineFunctionType (n : AstV) : String :=
  if getTy n = "ArrowFunctionExpression" then "arrow"
  else if ownBool n "async" then "promise"
  else if ownBool n "generator" then "array"
  else "function"

/-- The slice of `FunctionAnalysis` needed here. -/
structure FunctionAnalysisM where
  name : String
  ftype : String
  size : Nat
  complexity : Nat
deriving DecidableEq, Repr

/-- `FunctionAnalyzer.analyzeFunction`: `null` for nodes without a
recognizable function shape; otherwise name from `node.id?.name` (the
traverser has already written resolved names there), kind, size from `loc`,
and traversal-based complexity. -/
def analyzeFunction (n : AstV) : Option FunctionAnalysisM :=
  if getTy n ∈ FUNCTION_TYPES then
    some
      { name := jsOrD (propStr n "id" "name") "anonymous"
        ftype := determineFunctionType n
        size :=
          match getLoc n with
          | some (s, e) => e - s + 1
          | none => 0
        complexity := complexityOfNode n }
  else none

/-- The (name, kind) pairs of the function records
`RepositoryAnalyzer.analyzeFile` collects from a file's AST: one per
`onFunction` event whose node analyzes successfully. -/
def functionRecordsOf (ast : AstV) : List (String × String) :=
  (traverseNode ⟨true, false⟩ none ast).2.filterMap
    (fun ev =>
      match ev with
      | .fnEv n _ =>
        (match analyzeFunction n with
          | some a => some (a.name, a.ftype)
          | none => none)
      | _ => none)

mutual
/-- Control-flow occurrences in the whole subtree reachable by the walker
(not descending below literal kinds, which the walker skips). -/
def countCFAll : AstV → Nat
  | .node ty _ props =>
    if ty ∈ NODE_TYPES_TO_SKIP then 0
    else (if ty ∈ CONTROL_FLOW_TYPES then 1 else 0) + countCFProps props
  | _ => 0
/-- Control-flow occurrences below a property list (node values recurse,
array values recurse into their node elements, all else is skipped — the
walker's reflection rule). -/
def countCFProps : AstProps → Nat
  | .nil => 0
  | .cons _ (.node t l ps) rest => countCFAll (.node t l ps) + countCFProps rest
  | .cons _ (.arr es) rest => countCFElems es + countCFProps rest
  | .cons _ _ rest => countCFProps rest
/-- Control-flow occurrences below an array (non-node elements skipped). -/
def countCFElems : AstElems → Nat
  | .nil => 0
  | .cons (.node t l ps) rest => countCFAll (.node t l ps) + countCFElems rest
  | .cons _ rest => countCFElems rest
end

/-- Modelled from the spec sentence of C1 (the claim's own counting rule,
for comparison with the code): the node kinds the claim says increment
complexity — the ten control-flow kinds plus the optional-chaining
short-circuit kinds (`??` is a `LogicalExpression` and is already in the
ten). -/
def claimComplexityTypes : List String :=
  CONTROL_FLOW_TYPES ++ ["OptionalMemberExpression", "OptionalCallExpression"]

mutual
/-- Modelled from the spec sentence of C1: occurrences of the claim's
kinds inside a function's own subtree, not descending into nested function
subtrees. -/
def claimCountN : AstV → Nat
  | .node ty _ props =>
    if ty ∈ FUNCTION_TYPES then 0
    else (if ty ∈ claimComplexityTypes then 1 else 0) + claimCountProps props
  | _ => 0
/-- Claim-side count below a property list. -/
def claimCountProps : AstProps → Nat
  | .nil => 0
  | .cons _ (.node t l ps) rest => claimCountN (.node t l ps) + claimCountProps rest
  | .cons _ (.arr es) rest => claimCountElems es + claimCountProps rest
  | .cons _ _ rest => claimCountProps rest
/-- Claim-side count below an array. -/
def claimCountElems : AstElems → Nat
  | .nil => 0
  | .cons (.node t l ps) rest => claimCountN (.node t l ps) + claimCountElems rest
  | .cons _ rest => claimCountElems rest
end

/-- Modelled from the spec sentence of C1: 1 plus the claim-side count over
the function's own subtree (the root function node itself is exempt from
the nested-function cut-off). -/
def claimComplexity (root : AstV) : Nat :=
  1 + (match root with
    | .node _ _ props => claimCountProps props
    | _ => 0)

/-- `BATCH_SIZE`-sized batches of `RepositoryAnalyzer.analyzeRepo`
(`files.slice(i, i + BATCH_SIZE)` for `i = 0, 100, 200, ...`), with
structural fuel. -/
def chunksGo {α : Type} (n : Nat) : Nat → List α → List (List α)
  | _, [] => []
  | 0, _ => []
  | fuel + 1, l => l.take n :: chunksGo n fuel (l.drop n)

/-- The batches of a file list. -/
def chunksOf {α : Type} (n : Nat) (l : List α) : List (List α) :=
  chunksGo n l.length l

/-- `RepositoryAnalyzer.analyzeRepo`, abstracted over the per-file outcomes
(`analyzeFile` returns `null` — `none` — when a file fails to parse or
analyze, and the failure is caught and logged): batches of 100 are awaited
in order, each batch's non-null results are appended, and the summary's
`errorCount` field is the literal `0` of the source. -/
def analyzeRepoModel {α : Type} (results : List (Option α)) : List α × Nat :=
  ((chunksOf 100 results).foldl (fun acc batch => acc ++ batch.filterMap id) [], 0)

/-- 250 per-file outcomes in which exactly file #150 fails. -/
def c5Input : List (Option Unit) :=
  List.replicate 149 (some ()) ++ none :: List.replicate 100 (some ())

/-- A Babel `Identifier` node carrying a name. -/
def identV (nm : String) : AstV :=
  .node "Identifier" none (.cons "name" (.strv nm) .nil)

/-- A call `obj.m(...)`: a `CallExpression` whose callee is a
`MemberExpression` on identifiers `obj` and `m`. -/
def memberCall (obj m : String) (args : AstElems) : AstV :=
  .node "CallExpression" none
    (.cons "callee"
      (.node "MemberExpression" none
        (.cons "object" (identV obj) (.cons "property" (identV m) .nil)))
      (.cons "arguments" (.arr args) .nil))

/-- An anonymous arrow function with an expression body. -/
def arrowX : AstV :=
  .node "ArrowFunctionExpression" (some (1, 1))
    (.cons "params" (.arr .nil) (.cons "body" (identV "x") .nil))

/-- `items.map(x => x)` as a full file AST
(`File → Program → ExpressionStatement → CallExpression`). -/
def fileAst : AstV :=
  .node "File" none
    (.cons "program"
      (.node "Program" none
        (.cons "body"
          (.arr (.cons
            (.node "ExpressionStatement" none
              (.cons "expression" (memberCall "items" "map" (.cons arrowX .nil)) .nil))
            .nil))
          .nil))
      .nil)

/-- An `if` statement with an empty block. -/
def ifNode : AstV :=
  .node "IfStatement" none
    (.cons "test" (identV "p")
      (.cons "consequent" (.node "BlockStatement" none (.cons "body" (.arr .nil) .nil)) .nil))

/-- A nested arrow function whose body holds one `if`. -/
def nestedArrow : AstV :=
  .node "ArrowFunctionExpression" (some (2, 4))
    (.cons "params" (.arr .nil)
      (.cons "body"
        (.node "BlockStatement" none (.cons "body" (.arr (.cons ifNode .nil)) .nil))
        .nil))

/-- `function f() { const g = () => { if (p) {} }; }`: a function whose
only control flow sits inside a nested function subtree. -/
def outerFn : AstV :=
  .node "FunctionDeclaration" (some (1, 5))
    (.cons "id" (identV "f")
      (.cons "params" (.arr .nil)
        (.cons "body"
          (.node "BlockStatement" none
            (.cons "body"
              (.arr (.cons
                (.node "VariableDeclaration" none
                  (.cons "declarations"
                    (.arr (.cons
                      (.node "VariableDeclarator" none
                        (.cons "id" (identV "g") (.cons "init" nestedArrow .nil)))
                      .nil))
                    .nil))
                .nil))
              .nil))
          .nil)))

/-- A concrete string-literal leaf node. -/
def strLit : AstV := .node "StringLiteral" none (.cons "value" (.strv "s") .nil)

namespace DuplicationDetector

/-- Arithmetic characterization of non-strict containment. -/
theorem containsFn_iff (a b : FuncM) :
    containsFn a b = true ↔
      a.startLine ≤ b.startLine ∧ b.startLine + b.lines ≤ a.startLine + a.lines := by
  simp [containsFn]

/-- Arithmetic characterization of the comparator relation `sortLe`. -/
theorem sortLe_iff (a b : Nat × FuncM) :
    sortLe a b ↔
      (a.2.startLine ≤ b.2.startLine ∧
          b.2.startLine + b.2.lines ≤ a.2.startLine + a.2.lines) ∨
        (¬(a.2.startLine ≤ b.2.startLine ∧
              b.2.startLine + b.2.lines ≤ a.2.startLine + a.2.lines) ∧
          ¬(b.2.startLine ≤ a.2.startLine ∧
              a.2.startLine + a.2.lines ≤ b.2.startLine + b.2.lines) ∧
          a.2.startLine ≤ b.2.startLine) := by
  unfold sortLe jsCompare containsFn
  split_ifs with h₁ h₂
  · simp_all
  · simp_all
  · simp_all
    try omega

/-- Every list splits at the first occurrence of one of its members. -/
theorem exists_takeWhile_split {α : Type} [BEq α] [LawfulBEq α] {x : α} :
    ∀ {l : List α}, x ∈ l → ∃ r, l = l.takeWhile (fun y => y != x) ++ x :: r := by
  intro l
  induction l with
  | nil => intro h; simp at h
  | cons c l ih =>
    intro h
    by_cases hc : c = x
    · subst hc
      refine ⟨l, ?_⟩
      have hx : (c != c) = false := by simp
      rw [List.takeWhile_cons, hx]
      simp
    · have hne : (c != x) = true := by simp [hc]
      have hx : x ∈ l := by
        rcases List.mem_cons.mp h with h' | h'
        · exact absurd h'.symm hc
        · exact h'
      obtain ⟨r, hr⟩ := ih hx
      refine ⟨r, ?_⟩
      rw [List.takeWhile_cons, hne]
      simp only [if_true, List.cons_append]
      exact congrArg (c :: ·) hr

/-- If `a` occurs before the first occurrence of `b`, the prefix before the
first occurrence of `a`, extended with `a`, is an initial segment of the
prefix before the first occurrence of `b`. -/
theorem takeWhile_chain {α : Type} [BEq α] [LawfulBEq α] {a b : α} :
    ∀ {l : List α}, a ∈ l.takeWhile (fun y => y != b) →
      ∃ t, l.takeWhile (fun y => y != b) =
        (l.takeWhile (fun y => y != a) ++ [a]) ++ t := by
  intro l
  induction l with
  | nil => intro h; simp at h
  | cons c l ih =>
    intro h
    by_cases hcb : c = b
    · exfalso
      subst hcb
      have hx : (c != c) = false := by simp
      rw [List.takeWhile_cons, hx] at h
      simp at h
    · have hneb : (c != b) = true := by simp [hcb]
      rw [List.takeWhile_cons, hneb] at h
      simp only [if_true] at h
      by_cases hca : c = a
      · subst hca
        refine ⟨l.takeWhile (fun y => y != b), ?_⟩
        have hx : (c != c) = false := by simp
        rw [List.takeWhile_cons, List.takeWhile_cons, hneb, hx]
        simp
      · have hnea : (c != a) = true := by simp [hca]
        have ha : a ∈ l.takeWhile (fun y => y != b) := by
          rcases List.mem_cons.mp h with h' | h'
          · exact absurd h'.symm hca
          · exact h'
        obtain ⟨t, ht⟩ := ih ha
        refine ⟨t, ?_⟩
        rw [List.takeWhile_cons, List.takeWhile_cons, hneb, hnea]
        simp only [if_true, List.cons_append, List.append_assoc]
        rw [ht]
        simp

/-- C3 core: under the detector's level computation, a function strictly
containing another is placed earlier by the (stable comparator-)sort, and
every sorted predecessor containing the outer function also contains the
inner one, so the inner function's computed nesting level is strictly
larger. -/
theorem level_lt_of_strictContains (fns : List FuncM) (i j : Nat) (f g : FuncM)
    (hf : (i, f) ∈ fns.enum) (hg : (j, g) ∈ fns.enum)
    (hstrict : strictContains f g) :
    levelOfAt (sortedFunctions fns) (i, f) < levelOfAt (sortedFunctions fns) (j, g) := by
  classical
  haveI : IsTrans (Nat × FuncM) sortLe :=
    ⟨by
      intro a b c hab hbc
      rw [sortLe_iff] at hab hbc ⊢
      omega⟩
  haveI : IsTotal (Nat × FuncM) sortLe :=
    ⟨by
      intro a b
      rw [sortLe_iff, sortLe_iff]
      omega⟩
  obtain ⟨hcfg, hcgf⟩ := hstrict
  set s : List (Nat × FuncM) := sortedFunctions fns with hs
  have hperm : s.Perm fns.enum := List.perm_insertionSort sortLe fns.enum
  have hsorted : s.Sorted sortLe := List.sorted_insertionSort sortLe fns.enum
  have hfs : (i, f) ∈ s := hperm.mem_iff.mpr hf
  have hgs : (j, g) ∈ s := hperm.mem_iff.mpr hg
  have hrefl : containsFn g g = true := by
    rw [containsFn_iff]
    omega
  have hne : (i, f) ≠ (j, g) := by
    intro h
    have hfg : f = g := congrArg Prod.snd h
    rw [hfg, hrefl] at hcgf
    cases hcgf
  have hnotle : ¬ sortLe (j, g) (i, f) := by
    rw [sortLe_iff]
    have h1 := (containsFn_iff f g).mp hcfg
    have h2 : ¬ (g.startLine ≤ f.startLine ∧
        f.startLine + f.lines ≤ g.startLine + g.lines) := by
      intro hc
      rw [(containsFn_iff g f).mpr hc] at hcgf
      cases hcgf
    dsimp only
    omega
  -- decompose the sorted list at the first occurrence of (j, g)
  obtain ⟨r, hr⟩ := exists_takeWhile_split (x := (j, g)) hgs
  -- (i, f) occurs before (j, g): otherwise sortedness forces sortLe (j,g) (i,f)
  have hmemTW : (i, f) ∈ s.takeWhile (fun y => y != (j, g)) := by
    have hmem := hfs
    rw [hr] at hmem hsorted
    rcases List.mem_append.mp hmem with h | h
    · exact h
    · exfalso
      rcases List.mem_cons.mp h with h' | h'
      · exact hne h'
      · have hpair := (List.pairwise_append.mp hsorted).2.1
        exact hnotle ((List.pairwise_cons.mp hpair).1 _ h')
  obtain ⟨t, ht⟩ := takeWhile_chain hmemTW
  unfold levelOfAt
  rw [ht]
  simp only [List.countP_append, List.countP_cons]
  have hcfg1 : containsFn (i, f).2 g = true := hcfg
  have hmono : (s.takeWhile (fun y => y != (i, f))).countP (fun x => containsFn x.2 f) ≤
      (s.takeWhile (fun y => y != (i, f))).countP (fun x => containsFn x.2 g) := by
    apply List.countP_mono_left
    intro x _ hx
    rw [containsFn_iff] at hx ⊢
    have h1 := (containsFn_iff f g).mp hcfg
    omega
  simp only [hcfg1, List.countP_nil, ite_true]
  omega

/-- Marking a line range never changes the length of the flag array. -/
theorem markRange_length (rng : Int × Int) (flags : List Bool) :
    (markRange flags rng).length = flags.length := by
  unfold markRange
  generalize List.range (rng.2 - rng.1 + 1).toNat = l
  induction l generalizing flags with
  | nil => rfl
  | cons k l ih =>
    rw [List.foldl_cons]
    rw [ih]
    split_ifs with h
    · exact List.length_set flags _ _
    · rfl

/-- Folding `markRange` over occurrence ranges preserves the length. -/
theorem foldl_markRange_length (rs : List (Int × Int)) (flags : List Bool) :
    (rs.foldl markRange flags).length = flags.length := by
  induction rs generalizing flags with
  | nil => rfl
  | cons r rs ih => rw [List.foldl_cons, ih, markRange_length]

/-- The flag array built by `findDuplicatedCode` always keeps the length it
was allocated with, so the count of flagged lines is at most
`totalFileLines`. -/
theorem findDuplicatedCode_le (functions : List FuncM) (totalFileLines : Nat) :
    findDuplicatedCode functions totalFileLines ≤ totalFileLines := by
  unfold findDuplicatedCode
  generalize buildCodeMap functions = cm
  have hlen : ∀ (m : CodeMap) (fl : List Bool),
      (m.foldl (fun fl e =>
        if 1 < e.2.count then (e.2.indexes.drop 1).foldl markRange fl else fl) fl).length
        = fl.length := by
    intro m
    induction m with
    | nil => intro fl; rfl
    | cons e m ih =>
      intro fl
      rw [List.foldl_cons, ih]
      split_ifs with h
      · exact foldl_markRange_length _ _
      · rfl
  calc _ ≤ (cm.foldl (fun fl e =>
        if 1 < e.2.count then (e.2.indexes.drop 1).foldl markRange fl else fl)
        (List.replicate totalFileLines false)).length := List.countP_le_length _
    _ = totalFileLines := by rw [hlen, List.length_replicate]

end DuplicationDetector

open DuplicationDetector

/-- C2.  For every file analysis the duplication percentage lies between 0
and 100: duplicated lines are flagged in a single boolean array of size
`totalFunctionLines`, a physical line is counted at most once (the array is
boolean and counted once at the end), and the count of flagged lines can
never exceed the array size, whatever overlapping or nesting the function
line ranges exhibit. -/
theorem c2_duplication_percentage_bounds (functions : List FuncM) :
    0 ≤ duplicationPercentage functions ∧ duplicationPercentage functions ≤ 100 := by
  unfold duplicationPercentage
  set t := (functions.map FuncM.lines).sum with ht
  split_ifs with hpos
  · have hle : findDuplicatedCode functions t ≤ t := findDuplicatedCode_le functions t
    have htq : (0 : ℚ) < (t : ℚ) := by exact_mod_cast hpos
    constructor
    · positivity
    · have hdiv : (findDuplicatedCode functions t : ℚ) / (t : ℚ) ≤ 1 := by
        rw [div_le_one htq]
        exact_mod_cast hle
      calc (findDuplicatedCode functions t : ℚ) / (t : ℚ) * 100
          ≤ 1 * 100 := by nlinarith
        _ = 100 := by norm_num
  · norm_num

/-- C3.  If function `g`'s line range is strictly contained in function
`f`'s, the nesting level the detector computes for `g` is strictly greater
than the one it computes for `f` (both functions taking part in the
duplication pass of one file). -/
theorem c3_nesting_level_monotone (fns : List FuncM) (i j : Nat) (f g : FuncM)
    (hf : (i, f) ∈ fns.enum) (hg : (j, g) ∈ fns.enum)
    (_hfc : f.code ≠ []) (_hgc : g.code ≠ [])
    (hstrict : strictContains f g) :
    levelOfAt (sortedFunctions fns) (i, f) < levelOfAt (sortedFunctions fns) (j, g) :=
  level_lt_of_strictContains fns i j f g hf hg hstrict

/-- Witness for C3 at a concrete two-function file: the outer function gets
level 0, the strictly contained one level 1. -/
theorem c3_nesting_level_monotone_witness :
    (0, lvlF) ∈ [lvlF, lvlG].enum ∧ (1, lvlG) ∈ [lvlF, lvlG].enum ∧
      lvlF.code ≠ [] ∧ lvlG.code ≠ [] ∧ strictContains lvlF lvlG ∧
      levelOfAt (sortedFunctions [lvlF, lvlG]) (0, lvlF)
        < levelOfAt (sortedFunctions [lvlF, lvlG]) (1, lvlG) :=
  ⟨by decide, by decide, by decide, by decide, ⟨by decide, by decide⟩,
    c3_nesting_level_monotone [lvlF, lvlG] 0 1 lvlF lvlG (by decide) (by decide)
      (by decide) (by decide) ⟨by decide, by decide⟩⟩

/-- C8.  The duplication detector is a pure function of its input: two runs
of `findDuplicatedCode` on the same list of function records and the same
total line count return the same duplicated-line count. -/
theorem c8_detector_deterministic (fns₁ fns₂ : List FuncM) (total₁ total₂ : Nat)
    (hfns : fns₁ = fns₂) (htotal : total₁ = total₂) :
    findDuplicatedCode fns₁ total₁ = findDuplicatedCode fns₂ total₂ := by
  rw [hfns, htotal]

/-- Witness for C8 on a concrete input. -/
theorem c8_detector_deterministic_witness :
    findDuplicatedCode [dupA, dupB] 10 = findDuplicatedCode [dupA, dupB] 10 :=
  c8_detector_deterministic [dupA, dupB] [dupA, dupB] 10 10 rfl rfl

set_option maxRecDepth 400000 in
/-- C10.  The detector's `codeMap` is keyed by fingerprint alone: in the
concrete file `[dupA, dupB, dupD, dupC]` the two top-level functions `dupA`
and `dupB` have identical normalized bodies (fingerprint `43|3|3|9`) and
both sit at level 0, yet the later-processed level-1 function `dupC`
produces the same fingerprint and its fresh single-occurrence group
replaces, in place, the two-occurrence group of `dupA`/`dupB` — so the final
map holds one group per fingerprint, that group has `count = 1` and
`level = 1`, and the file's duplicated-line count is 0. -/
theorem c10_fingerprint_collision_across_levels :
    ((extractFunctionBody dupA.code).map (fun b => (normalizeCode b).take 1000)
        = (extractFunctionBody dupB.code).map (fun b => (normalizeCode b).take 1000)) ∧
      levelOfAt (sortedFunctions [dupA, dupB, dupD, dupC]) (0, dupA) = 0 ∧
      levelOfAt (sortedFunctions [dupA, dupB, dupD, dupC]) (1, dupB) = 0 ∧
      levelOfAt (sortedFunctions [dupA, dupB, dupD, dupC]) (3, dupC) = 1 ∧
      (buildCodeMap [dupA, dupB, dupD, dupC]).map (fun e => (e.1, e.2.count, e.2.level))
        = [("43|3|3|9".toList, 1, 1), ("102|7|6|20".toList, 1, 0)] ∧
      findDuplicatedCode [dupA, dupB, dupD, dupC] 25 = 0 ∧
      findDuplicatedCode [dupA, dupB] 10 = 5 := by
  refine ⟨by decide, by decide, by decide, by decide, by decide, by decide, by decide⟩

set_option maxRecDepth 400000 in
/-- C4 (code evaluation at the failing input).  The functions `simA` and
`simB` have distinct but cheaply similar fingerprints, and the windowed
similarity of their normalized body texts is 1 (≥ 0.8), so by the claim
`simB` would join `simA`'s group and 4 lines would be duplicated; but the
source hands the stored *fingerprint string* to
`calculateSimilarityOptimized` as its second argument, which is shorter
than one 50-character window, so the computed similarity is 0 and the
detector reports 0 duplicated lines. -/
theorem c4_similarity_evaluated_at_failing_input :
    generateFingerprint normA ≠ generateFingerprint normB ∧
      areFingerprintsSimilar (generateFingerprint normB) (generateFingerprint normA) = true ∧
      calculateSimilarityOptimized normA normB = 1 ∧
      calculateSimilarityOptimized normB (generateFingerprint normA) = 0 ∧
      findDuplicatedCode [simA, simB] 8 = 0 := by
  have h1 : similarityCounts normA normB = (1, 1) := by decide
  have h2 : similarityCounts normB (generateFingerprint normA) = (0, 0) := by decide
  refine ⟨by decide, by decide, ?_, ?_, by decide⟩
  · rw [calculateSimilarityOptimized, h1]
    norm_num
  · rw [calculateSimilarityOptimized, h2]
    norm_num

mutual
/-- With only `onControlFlow` registered, a traversal's counted events are
exactly the control-flow occurrences of the subtree. -/
theorem travN_count : ∀ (p : Option AstV) (n : AstV),
    ((traverseNode ⟨false, true⟩ p n).2.countP isCountedCF) = countCFAll n
  | p, .node ty loc props => by
    rw [traverseNode, countCFAll]
    by_cases hskip : ty ∈ NODE_TYPES_TO_SKIP
    · rw [if_pos hskip, if_pos hskip]
      simp
    · rw [if_neg hskip, if_neg hskip]
      have hfn : functionNameMutation ⟨false, true⟩ p (.node ty loc props) = none := by
        rw [functionNameMutation]
        simp
      have hfe : functionEvents ⟨false, true⟩ p (.node ty loc props) = [] := by
        rw [functionEvents]
        simp
      simp only [hfn, hfe, applyMut, List.countP_append, List.nil_append,
        List.countP_nil]
      rw [travP_count]
      by_cases hcf : ty ∈ CONTROL_FLOW_TYPES
      · simp [hcf, isCountedCF]
      · simp [hcf, isCountedCF]
  | _, .arr _ => rfl
  | _, .strv _ => rfl
  | _, .boolv _ => rfl
  | _, .nullv => rfl
  | _, .other => rfl
/-- Property-list part of `travN_count`. -/
theorem travP_count : ∀ (cur : AstV) (pl : AstProps),
    ((traverseProps ⟨false, true⟩ cur pl).2.countP isCountedCF) = countCFProps pl
  | cur, .nil => rfl
  | cur, .cons k (.node t l ps) rest => by
    show ((traverseNode ⟨false, true⟩ (some cur) (.node t l ps)).2
        ++ (traverseProps ⟨false, true⟩ cur rest).2).countP isCountedCF
      = countCFAll (.node t l ps) + countCFProps rest
    rw [List.countP_append, travN_count, travP_count]
  | cur, .cons k (.arr es) rest => by
    show ((traverseElems ⟨false, true⟩ cur es).2
        ++ (traverseProps ⟨false, true⟩ cur rest).2).countP isCountedCF
      = countCFElems es + countCFProps rest
    rw [List.countP_append, travE_count, travP_count]
  | cur, .cons k (.strv s) rest => travP_count cur rest
  | cur, .cons k (.boolv b) rest => travP_count cur rest
  | cur, .cons k .nullv rest => travP_count cur rest
  | cur, .cons k .other rest => travP_count cur rest
/-- Array part of `travN_count`. -/
theorem travE_count : ∀ (cur : AstV) (es : AstElems),
    ((traverseElems ⟨false, true⟩ cur es).2.countP isCountedCF) = countCFElems es
  | cur, .nil => rfl
  | cur, .cons (.node t l ps) rest => by
    show ((traverseNode ⟨false, true⟩ (some cur) (.node t l ps)).2
        ++ (traverseElems ⟨false, true⟩ cur rest).2).countP isCountedCF
      = countCFAll (.node t l ps) + countCFElems rest
    rw [List.countP_append, travN_count, travE_count]
  | cur, .cons (.arr es') rest => travE_count cur rest
  | cur, .cons (.strv s) rest => travE_count cur rest
  | cur, .cons (.boolv b) rest => travE_count cur rest
  | cur, .cons .nullv rest => travE_count cur rest
  | cur, .cons .other rest => travE_count cur rest
end

/-- Reading back a freshly written property. -/
theorem getPropL_setPropL (key : String) (v : AstV) :
    ∀ pl : AstProps, getPropL (setPropL pl key v) key = some v
  | .nil => by simp [setPropL, getPropL]
  | .cons k w rest => by
    by_cases h : k = key
    · simp [setPropL, getPropL, h]
    · simp [setPropL, getPropL, h, getPropL_setPropL key v rest]

set_option maxRecDepth 100000 in
/-- C1 counterexample.  For `outerFn` — a function declaration whose only
control flow is an `if` inside a nested arrow function — the claim's rule
(count only the function's own subtree, stopping at nested functions, also
counting optional-chaining kinds) gives complexity 1, but
`analyzeFunction` computes 2: the traversal recurses into nested function
subtrees and counts their control flow too. -/
theorem c1_complexity_counterexample :
    (analyzeFunction outerFn).map (fun a => a.complexity) = some 2 ∧
      claimComplexity outerFn = 1 := by
  refine ⟨by decide, by decide⟩

/-- C1 amended.  For every node of recognizable function shape,
`analyzeFunction` yields a record whose complexity is 1 plus the number of
occurrences of the ten control-flow kinds (`if`, `switch-case`,
`for`/`for-in`/`for-of`, `while`, `do-while`, `catch`,
conditional-expression, `LogicalExpression` — which covers `&&`, `||` and
`??`) in the *entire* subtree reachable by the walker, nested function
subtrees included; optional-chaining member/call kinds do not increment. -/
theorem c1_complexity_amended (n : AstV) (h : getTy n ∈ FUNCTION_TYPES) :
    ∃ a, analyzeFunction n = some a ∧ a.complexity = 1 + countCFAll n := by
  have ha : analyzeFunction n = some
      { name := jsOrD (propStr n "id" "name") "anonymous"
        ftype := determineFunctionType n
        size :=
          match getLoc n with
          | some (s, e) => e - s + 1
          | none => 0
        complexity := complexityOfNode n } := by
    rw [analyzeFunction, if_pos h]
  refine ⟨_, ha, ?_⟩
  show complexityOfNode n = 1 + countCFAll n
  rw [complexityOfNode, travN_count]

set_option maxRecDepth 100000 in
/-- Witness for C1 amended at the concrete `outerFn`. -/
theorem c1_complexity_amended_witness :
    getTy outerFn ∈ FUNCTION_TYPES ∧
      ∃ a, analyzeFunction outerFn = some a ∧ a.complexity = 1 + countCFAll outerFn :=
  ⟨by decide, c1_complexity_amended outerFn (by decide)⟩

/-- Joining the batches recovers the file list. -/
theorem chunksGo_flatten {α : Type} :
    ∀ (fuel : Nat) (l : List α), l.length ≤ fuel → (chunksGo 100 fuel l).flatten = l := by
  intro fuel
  induction fuel with
  | zero =>
    intro l hl
    have : l = [] := List.eq_nil_of_length_eq_zero (Nat.le_zero.mp hl)
    subst this
    rfl
  | succ fuel ih =>
    intro l hl
    match l with
    | [] => rfl
    | x :: xs =>
      have hstep : chunksGo 100 (fuel + 1) (x :: xs)
          = List.take 100 (x :: xs) :: chunksGo 100 fuel (List.drop 100 (x :: xs)) := rfl
      rw [hstep, List.flatten_cons,
        ih ((x :: xs).drop 100) (by simp at hl ⊢; omega),
        List.take_append_drop]

/-- Folding batch results is filtering the joined batches. -/
theorem foldl_batches {α : Type} :
    ∀ (cs : List (List (Option α))) (acc : List α),
      cs.foldl (fun a b => a ++ b.filterMap id) acc = acc ++ cs.flatten.filterMap id := by
  intro cs
  induction cs with
  | nil => intro acc; simp
  | cons c cs ih =>
    intro acc
    rw [List.foldl_cons, ih, List.flatten_cons, List.filterMap_append, List.append_assoc]

set_option maxRecDepth 1000000 in
/-- C5 counterexample.  With 250 discoverable files of which exactly #150
fails, the orchestrator runs 3 batches and the report carries 249 file
analyses — but the summary's `errorCount` is the hard-coded literal 0 of
the source, not 1. -/
theorem c5_error_count_counterexample :
    (chunksOf 100 c5Input).length = 3 ∧
      (analyzeRepoModel c5Input).1.length = 249 ∧
      (analyzeRepoModel c5Input).2 = 0 ∧
      (analyzeRepoModel c5Input).2 ≠ 1 := by
  refine ⟨by decide, by decide, by decide, by decide⟩

/-- C5 amended.  Per-file failures are caught and the failing file is
simply absent from the aggregated reports (order preserved, batching
immaterial), but they are never counted: `errorCount` is 0 for every
input. -/
theorem c5_failures_skipped_never_counted {α : Type} (results : List (Option α)) :
    (analyzeRepoModel results).1 = results.filterMap id ∧
      (analyzeRepoModel results).2 = 0 := by
  constructor
  · show (chunksOf 100 results).foldl (fun a b => a ++ b.filterMap id) [] = _
    rw [foldl_batches, List.nil_append, chunksOf,
      chunksGo_flatten results.length results le_rfl]
  · rfl

set_option maxRecDepth 100000 in
/-- C6 counterexample.  Traversing the concrete file `items.map(x => x)`
with an `onFunction` callback returns a tree different from the input: the
resolver writes `id = Identifier("map")` onto the shared arrow-function
node. -/
theorem c6_ast_mutated_counterexample :
    (traverseNode ⟨true, false⟩ none fileAst).1 ≠ fileAst := by
  decide

/-- C6 amended.  The traverser *does* write the resolved name back onto the
shared AST node: whenever `onFunction` is registered and an
arrow-function or function-expression node resolves to a name other than
`"anonymous"`, the node returned by the traversal carries
`id = Identifier(resolvedName)` (it does still also hand the name to the
caller through the `onFunction` event's node). -/
theorem c6_resolved_name_written_back (opts : TravOpts) (parent : Option AstV)
    (ty : String) (loc : Option (Nat × Nat)) (props : AstProps)
    (hop : opts.onFunction = true)
    (hty : ty = "ArrowFunctionExpression" ∨ ty = "FunctionExpression")
    (hname : resolveFunctionName (.node ty loc props) parent ≠ "anonymous") :
    getProp (traverseNode opts parent (.node ty loc props)).1 "id"
      = some (identNode (resolveFunctionName (.node ty loc props) parent)) := by
  have hskip : ty ∉ NODE_TYPES_TO_SKIP := by
    rcases hty with h | h <;> subst h <;> decide
  have hfun : getTy (.node ty loc props) ∈ FUNCTION_TYPES := by
    rcases hty with h | h <;> subst h <;> simp [getTy, FUNCTION_TYPES]
  have harrow : getTy (.node ty loc props) = "ArrowFunctionExpression"
      ∨ getTy (.node ty loc props) = "FunctionExpression" := by
    rcases hty with h | h <;> subst h
    · exact Or.inl rfl
    · exact Or.inr rfl
  have hnm : functionNameMutation opts parent (.node ty loc props)
      = some (resolveFunctionName (.node ty loc props) parent) := by
    rw [functionNameMutation, if_pos ⟨hop, hfun, harrow, hname⟩]
  rw [traverseNode, if_neg hskip]
  simp only [hnm, applyMut, setId, getProp]
  exact getPropL_setPropL _ _ _

set_option maxRecDepth 100000 in
/-- Witness for C6 amended: the anonymous arrow of `items.map(x => x)`
resolves to `"map"` and the traversed node carries that identifier. -/
theorem c6_resolved_name_written_back_witness :
    getProp (traverseNode ⟨true, false⟩
        (some (memberCall "items" "map" (.cons arrowX .nil)))
        (.node "ArrowFunctionExpression" (some (1, 1))
          (.cons "params" (.arr .nil) (.cons "body" (identV "x") .nil)))).1 "id"
      = some (identNode (resolveFunctionName
          (.node "ArrowFunctionExpression" (some (1, 1))
            (.cons "params" (.arr .nil) (.cons "body" (identV "x") .nil)))
          (some (memberCall "items" "map" (.cons arrowX .nil))))) :=
  c6_resolved_name_written_back ⟨true, false⟩
    (some (memberCall "items" "map" (.cons arrowX .nil)))
    "ArrowFunctionExpression" (some (1, 1))
    (.cons "params" (.arr .nil) (.cons "body" (identV "x") .nil))
    rfl (Or.inl rfl) (by decide)

set_option maxRecDepth 100000 in
/-- C7 counterexample.  For the file `items.map(x => x)` the analyzer's
function record is named `"map"` (the bare method name), not
`"map callback"`, and its kind is `"arrow"`, not the array-callback kind
(`"array"` in the record vocabulary). -/
theorem c7_map_callback_counterexample :
    functionRecordsOf fileAst = [("map", "arrow")] ∧
      ("map" : String) ≠ "map callback" ∧ ("arrow" : String) ≠ "array" := by
  refine ⟨by decide, by decide, by decide⟩

/-- C7 amended.  An anonymous arrow function whose parent is a call on a
member expression (`obj.m(...)`) is given the bare method name `m` by the
traverser's name resolution (for non-empty `m`), and its record kind is
`"arrow"`. -/
theorem c7_member_call_arrow_name (obj m : String) (args : AstElems) (n : AstV)
    (hm : m ≠ "") (hn : getTy n = "ArrowFunctionExpression") :
    resolveFunctionName n (some (memberCall obj m args)) = m ∧
      determineFunctionType n = "arrow" := by
  constructor
  · rw [resolveFunctionName, hn]
    simp [getParentInfo, memberCall, getTy, getProp, getPropL, propStr, identV,
      jsOrD, hm]
  · rw [determineFunctionType, if_pos hn]

/-- Witness for C7 amended at the concrete `items.map(x => x)` arrow. -/
theorem c7_member_call_arrow_name_witness :
    resolveFunctionName arrowX (some (memberCall "items" "map" (.cons arrowX .nil))) = "map" ∧
      determineFunctionType arrowX = "arrow" :=
  c7_member_call_arrow_name "items" "map" (.cons arrowX .nil) arrowX
    (by decide) (by decide)

/-- C9.  On a node of a leaf literal kind the walker returns at once — the
node unchanged and no callback events — and on a missing (`null`) node it
is a no-op. -/
theorem c9_walker_skips_literals (opts : TravOpts) (parent : Option AstV) (n : AstV)
    (h : getTy n ∈ NODE_TYPES_TO_SKIP) :
    traverseNode opts parent n = (n, []) ∧ traverseOpt opts parent none = (none, []) := by
  refine ⟨?_, rfl⟩
  match n with
  | .node ty loc props =>
    have hty : ty ∈ NODE_TYPES_TO_SKIP := h
    rw [traverseNode, if_pos hty]
  | .arr es => simp [getTy, NODE_TYPES_TO_SKIP] at h
  | .strv s => simp [getTy, NODE_TYPES_TO_SKIP] at h
  | .boolv b => simp [getTy, NODE_TYPES_TO_SKIP] at h
  | .nullv => simp [getTy, NODE_TYPES_TO_SKIP] at h
  | .other => simp [getTy, NODE_TYPES_TO_SKIP] at h

/-- Witness for C9 at a concrete string literal. -/
theorem c9_walker_skips_literals_witness :
    traverseNode ⟨true, true⟩ none strLit = (strLit, []) ∧
      traverseOpt ⟨true, true⟩ none none = (none, []) :=
  c9_walker_skips_literals ⟨true, true⟩ none strLit (by decide)
